import Mathlib

/-!
Verification of the aggregation / ranking / filtering / projection engine of the
Toronto BikeShare network visualization (`script.js`).

The definitions below are a shallow embedding of the current version of
`script.js` (the second document in the file, whose line numbers the claims
reference).  JS `Map`s are embedded as insertion-ordered association lists,
JS numbers as `Nat`/`Int`/`Rat` (32-bit wrapping is made explicit where the
source uses `|0` / `>>>`), and the stable `Array.prototype.sort` with
comparator `(a,b) => key(b) - key(a)` as `List.insertionSort` with the
relation `fun a b => key b ≤ key a` (the unique stable descending order).
-/

set_option maxHeartbeats 1000000
set_option maxRecDepth 100000

namespace BikeVis

/-- Membership type of a cleaned trip record.  `loadAllCSVs` collapses the raw
`User Type` column to `Annual`, `Casual` or `Other`. -/
inductive MemberType
  | Annual
  | Casual
  | Other
deriving DecidableEq, Repr

/-- A cleaned trip record as produced by `loadAllCSVs`:
`{start_station_name, end_station_name, member_type}`. -/
structure Trip where
  start_station_name : String
  end_station_name : String
  member_type : MemberType
deriving DecidableEq, Repr

/-- Member-filter key of the cache: `'All' | 'Annual' | 'Casual'`. -/
inductive MemberKey
  | All
  | Annual
  | Casual
deriving DecidableEq, Repr

/-- Month-filter key of the cache: `none` is the `'All'` bucket, `some i` the
specific month `'01'..'12'` (`i : Fin 12`, month `i+1`). -/
abbrev MonthKey := Option (Fin 12)

/-- Per-station record held in a `stationAgg` cell: `{ name, start: 0, end: 0 }`
in the source; the `end` field is called `endC` because `end` is a Lean
keyword. -/
structure StationStat where
  name : String
  start : Nat
  endC : Nat
deriving DecidableEq, Repr

/-- The `type === 'start' ? rec.start += 1 : rec.end += 1` update of
`updateStation`. -/
def bumpStation (r : StationStat) (isStart : Bool) : StationStat :=
  if isStart then { r with start := r.start + 1 } else { r with endC := r.endC + 1 }

/-- Body of `updateStation` after the `if (!name) return;` guard: find the
record for `name` in the insertion-ordered map (appending a fresh
`{name, 0, 0}` record at the end when absent) and bump its field. -/
def updateStationRec : List StationStat → String → Bool → List StationStat
  | [], name, isStart =>
    [⟨name, if isStart then 1 else 0, if isStart then 0 else 1⟩]
  | r :: rs, name, isStart =>
    if r.name = name then bumpStation r isStart :: rs
    else r :: updateStationRec rs name isStart

/-- Source `updateStation(map, name, type)` from `buildCaches`: a no-op on an empty
name (`if (!name) return;`), otherwise increments the `start` or `end` count of
the station's record, inserting the record on first sight. -/
def updateStation (m : List StationStat) (name : String) (isStart : Bool) :
    List StationStat :=
  if name = "" then m else updateStationRec m name isStart

/-- Inner map of `endRoutes` cells: `Map(end -> count)` in insertion order. -/
abbrev EndCounts := List (String × Nat)

/-- One `endRoutes` cell: `startStation -> Map(end -> count)`. -/
abbrev RouteMap := List (String × EndCounts)

/-- Source `m.set(end, (m.get(end) || 0) + 1)`: bump the count of `e`, appending
`(e, 1)` when absent. -/
def bumpEnd : EndCounts → String → EndCounts
  | [], e => [(e, 1)]
  | (n, c) :: rest, e =>
    if n = e then (n, c + 1) :: rest else (n, c) :: bumpEnd rest e

/-- The route update of `buildCaches`: create the `Map` for the start station
when absent, then bump the end-station count. -/
def addRoute : RouteMap → String → String → RouteMap
  | [], s, e => [(s, bumpEnd [] e)]
  | (n, m) :: rest, s, e =>
    if n = s then (n, bumpEnd m e) :: rest else (n, m) :: addRoute rest s e

/-- The two parallel caches built by `buildCaches`:
`stationAgg[mem][mk]` and `endRoutes[mem][mk]`. -/
structure CacheState where
  stationAgg : MemberKey → MonthKey → List StationStat
  endRoutes : MemberKey → MonthKey → RouteMap

/-- Membership fan-out of `buildCaches`: `mem ∈ applyMembers` where
`applyMembers = mt === 'Other' ? ['All'] : ['All', mt]`. -/
def memApplies (mem : MemberKey) (mt : MemberType) : Bool :=
  match mem, mt with
  | .All, _ => true
  | .Annual, .Annual => true
  | .Casual, .Casual => true
  | _, _ => false

/-- Month fan-out of `buildCaches`: each trip is accumulated into the `'All'`
month bucket and its own month bucket. -/
def monthApplies (mk : MonthKey) (mm : Fin 12) : Bool :=
  match mk with
  | none => true
  | some i => i = mm

/-- Station-map update a single trip performs on one applicable cell:
`updateStation(start, 'start')` then `updateStation(end, 'end')`. -/
def tripStations (cell : List StationStat) (t : Trip) : List StationStat :=
  updateStation (updateStation cell t.start_station_name true)
    t.end_station_name false

/-- Processing of one trip in the accumulation loop of `buildCaches`.  The
source iterates `for (const mem of applyMembers)` and, for each such `mem`,
updates exactly the two cells `(mem, 'All')` and `(mem, mm)`; since those
cells are pairwise distinct this equals the pointwise description: a cell
`(mem, mk)` is updated iff `mem ∈ applyMembers` and `mk ∈ {'All', mm}`. -/
def stepTrip (st : CacheState) (mm : Fin 12) (t : Trip) : CacheState :=
  { stationAgg := fun mem mk =>
      if memApplies mem t.member_type && monthApplies mk mm then
        tripStations (st.stationAgg mem mk) t
      else st.stationAgg mem mk
    endRoutes := fun mem mk =>
      if memApplies mem t.member_type && monthApplies mk mm then
        addRoute (st.endRoutes mem mk) t.start_station_name t.end_station_name
      else st.endRoutes mem mk }

/-- The freshly initialized caches: every cell is an empty map. -/
def emptyCache : CacheState := ⟨fun _ _ => [], fun _ _ => []⟩

/-- One month bucket of `state.allData`: `{ mm, trips }`. -/
abbrev MonthData := Fin 12 × List Trip

/-- The inner `for (const trip of monthObj.trips)` loop of `buildCaches`. -/
def stepMonth (st : CacheState) (md : MonthData) : CacheState :=
  md.2.foldl (fun s t => stepTrip s md.1 t) st

/-- Source `buildCaches()`: a single linear pass over `state.allData`. -/
def buildCaches (allData : List MonthData) : CacheState :=
  allData.foldl stepMonth emptyCache

/-- Lookup `aggMap.get(name).start` with default 0 (first record wins, matching the
JS `Map` whose keys are unique). -/
def startCount : List StationStat → String → Nat
  | [], _ => 0
  | r :: rs, name => if r.name = name then r.start else startCount rs name

/-- Lookup `aggMap.get(name).end` with default 0. -/
def endCount : List StationStat → String → Nat
  | [], _ => 0
  | r :: rs, name => if r.name = name then r.endC else endCount rs name

/-- Lookup `m.get(e) || 0` on an inner route map. -/
def endLookup : EndCounts → String → Nat
  | [], _ => 0
  | (n, c) :: rest, e => if n = e then c else endLookup rest e

/-- Lookup `routes[s]?.get(e) || 0`: count of the route `s → e` in a cell. -/
def routeCount : RouteMap → String → String → Nat
  | [], _, _ => 0
  | (n, m) :: rest, s, e => if n = s then endLookup m e else routeCount rest s e

theorem startCount_updateStationRec_start (cell : List StationStat)
    (name name' : String) :
    startCount (updateStationRec cell name true) name' =
      startCount cell name' + if name' = name then 1 else 0 := by
  induction cell with
  | nil =>
    by_cases h : name' = name
    · subst h; simp [updateStationRec, startCount]
    · simp [updateStationRec, startCount, h, Ne.symm h]
  | cons r rs ih =>
    obtain ⟨rn, ra, rb⟩ := r
    by_cases h : rn = name
    · subst h
      by_cases h' : name' = rn
      · subst h'; simp [updateStationRec, startCount, bumpStation]
      · simp [updateStationRec, startCount, bumpStation, h', Ne.symm h']
    · simp only [updateStationRec, if_neg h]
      by_cases h' : rn = name'
      · subst h'
        simp [startCount, h]
      · simp [startCount, h', ih]

theorem startCount_updateStationRec_end (cell : List StationStat)
    (name name' : String) :
    startCount (updateStationRec cell name false) name' =
      startCount cell name' := by
  induction cell with
  | nil =>
    by_cases h : name' = name
    · subst h; simp [updateStationRec, startCount]
    · simp [updateStationRec, startCount, h, Ne.symm h]
  | cons r rs ih =>
    obtain ⟨rn, ra, rb⟩ := r
    by_cases h : rn = name
    · subst h
      by_cases h' : name' = rn
      · subst h'; simp [updateStationRec, startCount, bumpStation]
      · simp [updateStationRec, startCount, bumpStation, h', Ne.symm h']
    · simp only [updateStationRec, if_neg h]
      by_cases h' : rn = name'
      · subst h'
        simp [startCount]
      · simp [startCount, h', ih]

theorem endCount_updateStationRec_end (cell : List StationStat)
    (name name' : String) :
    endCount (updateStationRec cell name false) name' =
      endCount cell name' + if name' = name then 1 else 0 := by
  induction cell with
  | nil =>
    by_cases h : name' = name
    · subst h; simp [updateStationRec, endCount]
    · simp [updateStationRec, endCount, h, Ne.symm h]
  | cons r rs ih =>
    obtain ⟨rn, ra, rb⟩ := r
    by_cases h : rn = name
    · subst h
      by_cases h' : name' = rn
      · subst h'; simp [updateStationRec, endCount, bumpStation]
      · simp [updateStationRec, endCount, bumpStation, h', Ne.symm h']
    · simp only [updateStationRec, if_neg h]
      by_cases h' : rn = name'
      · subst h'
        simp [endCount, h]
      · simp [endCount, h', ih]

theorem endCount_updateStationRec_start (cell : List StationStat)
    (name name' : String) :
    endCount (updateStationRec cell name true) name' =
      endCount cell name' := by
  induction cell with
  | nil =>
    by_cases h : name' = name
    · subst h; simp [updateStationRec, endCount]
    · simp [updateStationRec, endCount, h, Ne.symm h]
  | cons r rs ih =>
    obtain ⟨rn, ra, rb⟩ := r
    by_cases h : rn = name
    · subst h
      by_cases h' : name' = rn
      · subst h'; simp [updateStationRec, endCount, bumpStation]
      · simp [updateStationRec, endCount, bumpStation, h', Ne.symm h']
    · simp only [updateStationRec, if_neg h]
      by_cases h' : rn = name'
      · subst h'
        simp [endCount]
      · simp [endCount, h', ih]

theorem endLookup_bumpEnd (m : EndCounts) (e e' : String) :
    endLookup (bumpEnd m e) e' =
      endLookup m e' + if e' = e then 1 else 0 := by
  induction m with
  | nil =>
    by_cases h : e' = e
    · subst h; simp [bumpEnd, endLookup]
    · simp [bumpEnd, endLookup, h, Ne.symm h]
  | cons p rest ih =>
    obtain ⟨n, c⟩ := p
    by_cases h : n = e
    · subst h
      by_cases h' : e' = n
      · subst h'; simp [bumpEnd, endLookup]
      · simp [bumpEnd, endLookup, h', Ne.symm h']
    · simp only [bumpEnd, if_neg h]
      by_cases h' : n = e'
      · subst h'
        simp [endLookup, h]
      · simp [endLookup, h', ih]

theorem routeCount_addRoute (rm : RouteMap) (s e s' e' : String) :
    routeCount (addRoute rm s e) s' e' =
      routeCount rm s' e' + if s' = s ∧ e' = e then 1 else 0 := by
  induction rm with
  | nil =>
    by_cases hs : s' = s
    · subst hs
      by_cases he : e' = e
      · subst he; simp [addRoute, routeCount, bumpEnd, endLookup]
      · simp [addRoute, routeCount, bumpEnd, endLookup, he, Ne.symm he]
    · simp [addRoute, routeCount, hs, Ne.symm hs]
  | cons p rest ih =>
    obtain ⟨n, m⟩ := p
    by_cases h : n = s
    · subst h
      by_cases h' : s' = n
      · subst h'
        simp [addRoute, routeCount, endLookup_bumpEnd]
      · simp [addRoute, routeCount, h', Ne.symm h']
    · simp only [addRoute, if_neg h]
      by_cases h' : n = s'
      · subst h'
        simp [routeCount, h]
      · simp [routeCount, h', ih]

theorem startCount_tripStations (cell : List StationStat) (t : Trip)
    (hs : t.start_station_name ≠ "") :
    startCount (tripStations cell t) t.start_station_name =
      startCount cell t.start_station_name + 1 := by
  unfold tripStations updateStation
  by_cases he : t.end_station_name = "" <;>
    simp [he, hs, startCount_updateStationRec_start,
      startCount_updateStationRec_end]

theorem endCount_tripStations (cell : List StationStat) (t : Trip)
    (he : t.end_station_name ≠ "") :
    endCount (tripStations cell t) t.end_station_name =
      endCount cell t.end_station_name + 1 := by
  unfold tripStations updateStation
  by_cases hs : t.start_station_name = "" <;>
    simp [he, hs, endCount_updateStationRec_end,
      endCount_updateStationRec_start]

/-- C1: processing one cleaned trip in `buildCaches` whose `member_type` is
`Annual` and whose month is `m` increments the start station's `start` count,
the end station's `end` count, and the `(start,end)` route count by exactly 1
in each of the four cells `(All, All)`, `(Annual, All)`, `(All, m)`,
`(Annual, m)`, and leaves every other cell unchanged; for a trip of type
`Other` only the two cells `(All, All)` and `(All, m)` are incremented and the
`Annual`/`Casual` member buckets are untouched. -/
theorem buildCaches_fanout (st : CacheState) (mm : Fin 12) (t : Trip)
    (hs : t.start_station_name ≠ "") (he : t.end_station_name ≠ "") :
    (t.member_type = .Annual →
      ∀ mem mk,
        startCount (CacheState.stationAgg (stepTrip st mm t) mem mk)
            t.start_station_name
            = startCount (st.stationAgg mem mk) t.start_station_name +
              (if (mem = .All ∨ mem = .Annual) ∧ (mk = none ∨ mk = some mm)
                then 1 else 0) ∧
        endCount (CacheState.stationAgg (stepTrip st mm t) mem mk)
            t.end_station_name
            = endCount (st.stationAgg mem mk) t.end_station_name +
              (if (mem = .All ∨ mem = .Annual) ∧ (mk = none ∨ mk = some mm)
                then 1 else 0) ∧
        routeCount (CacheState.endRoutes (stepTrip st mm t) mem mk)
            t.start_station_name t.end_station_name
            = routeCount (st.endRoutes mem mk) t.start_station_name
                t.end_station_name +
              (if (mem = .All ∨ mem = .Annual) ∧ (mk = none ∨ mk = some mm)
                then 1 else 0)) ∧
    (t.member_type = .Other →
      ∀ mem mk,
        startCount (CacheState.stationAgg (stepTrip st mm t) mem mk)
            t.start_station_name
            = startCount (st.stationAgg mem mk) t.start_station_name +
              (if mem = .All ∧ (mk = none ∨ mk = some mm) then 1 else 0) ∧
        endCount (CacheState.stationAgg (stepTrip st mm t) mem mk)
            t.end_station_name
            = endCount (st.stationAgg mem mk) t.end_station_name +
              (if mem = .All ∧ (mk = none ∨ mk = some mm) then 1 else 0) ∧
        routeCount (CacheState.endRoutes (stepTrip st mm t) mem mk)
            t.start_station_name t.end_station_name
            = routeCount (st.endRoutes mem mk) t.start_station_name
                t.end_station_name +
              (if mem = .All ∧ (mk = none ∨ mk = some mm) then 1 else 0)) := by
  constructor
  · intro hA mem mk
    have happ : (memApplies mem t.member_type && monthApplies mk mm) =
        decide ((mem = .All ∨ mem = .Annual) ∧ (mk = none ∨ mk = some mm)) := by
      rw [hA]
      cases mem <;> rcases mk with _ | i <;>
        simp [memApplies, monthApplies, Fin.ext_iff, eq_comm]
    refine ⟨?_, ?_, ?_⟩ <;>
      · simp only [stepTrip, happ]
        by_cases hc : (mem = MemberKey.All ∨ mem = MemberKey.Annual) ∧
            (mk = none ∨ mk = some mm)
        · simp [hc, startCount_tripStations _ _ hs, endCount_tripStations _ _ he,
            routeCount_addRoute]
        · simp [hc]
  · intro hO mem mk
    have happ : (memApplies mem t.member_type && monthApplies mk mm) =
        decide (mem = .All ∧ (mk = none ∨ mk = some mm)) := by
      rw [hO]
      cases mem <;> rcases mk with _ | i <;>
        simp [memApplies, monthApplies, Fin.ext_iff, eq_comm]
    refine ⟨?_, ?_, ?_⟩ <;>
      · simp only [stepTrip, happ]
        by_cases hc : mem = MemberKey.All ∧ (mk = none ∨ mk = some mm)
        · simp [hc, startCount_tripStations _ _ hs, endCount_tripStations _ _ he,
            routeCount_addRoute]
        · simp [hc]

/-- Witness for C1 at a concrete trip and empty cache. -/
theorem buildCaches_fanout_witness :
    ("King St W / Bathurst St" : String) ≠ "" ∧
      ("Union Station" : String) ≠ "" ∧
      ((Trip.mk "King St W / Bathurst St" "Union Station" .Annual).member_type
          = .Annual →
        ∀ mem mk,
          startCount (CacheState.stationAgg
              (stepTrip emptyCache 0
                (Trip.mk "King St W / Bathurst St" "Union Station" .Annual))
              mem mk) "King St W / Bathurst St"
              = startCount (emptyCache.stationAgg mem mk)
                  "King St W / Bathurst St" +
                (if (mem = .All ∨ mem = .Annual) ∧ (mk = none ∨ mk = some 0)
                  then 1 else 0) ∧
          endCount (CacheState.stationAgg
              (stepTrip emptyCache 0
                (Trip.mk "King St W / Bathurst St" "Union Station" .Annual))
              mem mk) "Union Station"
              = endCount (emptyCache.stationAgg mem mk) "Union Station" +
                (if (mem = .All ∨ mem = .Annual) ∧ (mk = none ∨ mk = some 0)
                  then 1 else 0) ∧
          routeCount (CacheState.endRoutes
              (stepTrip emptyCache 0
                (Trip.mk "King St W / Bathurst St" "Union Station" .Annual))
              mem mk) "King St W / Bathurst St" "Union Station"
              = routeCount (emptyCache.endRoutes mem mk)
                  "King St W / Bathurst St" "Union Station" +
                (if (mem = .All ∨ mem = .Annual) ∧ (mk = none ∨ mk = some 0)
                  then 1 else 0)) :=
  ⟨by decide, by decide,
    (buildCaches_fanout emptyCache 0
      (Trip.mk "King St W / Bathurst St" "Union Station" .Annual)
      (by decide) (by decide)).1⟩

/-- Sum of `start` counts over all stations of one `stationAgg` cell. -/
def sumStart (cell : List StationStat) : Nat := (cell.map (·.start)).sum

/-- Sum of `end` counts over all stations of one `stationAgg` cell. -/
def sumEnd (cell : List StationStat) : Nat := (cell.map (·.endC)).sum

/-- Total count of one inner route map. -/
def sumEndCounts (m : EndCounts) : Nat := (m.map (·.2)).sum

/-- Sum of all route counts of one `endRoutes` cell. -/
def sumRoutes (rm : RouteMap) : Nat := (rm.map (fun p => sumEndCounts p.2)).sum

/-- Whether a trip of month `mm` is fanned out into the cell `(mem, mk)`. -/
def applies (mem : MemberKey) (mk : MonthKey) (mm : Fin 12) (t : Trip) : Bool :=
  memApplies mem t.member_type && monthApplies mk mm

/-- Number of trips of one month bucket fanned out into the cell `(mem, mk)`. -/
def contribMonth (mem : MemberKey) (mk : MonthKey) (md : MonthData) : Nat :=
  (md.2.filter (fun t => applies mem mk md.1 t)).length

/-- Number of trip contributions fanned out into the cell `(mem, mk)` over the
whole dataset. -/
def contrib (mem : MemberKey) (mk : MonthKey) (d : List MonthData) : Nat :=
  (d.map (contribMonth mem mk)).sum

theorem sumStart_cons (r : StationStat) (rs : List StationStat) :
    sumStart (r :: rs) = r.start + sumStart rs := by
  simp [sumStart]

theorem sumEnd_cons (r : StationStat) (rs : List StationStat) :
    sumEnd (r :: rs) = r.endC + sumEnd rs := by
  simp [sumEnd]

theorem sumEndCounts_cons (p : String × Nat) (rest : EndCounts) :
    sumEndCounts (p :: rest) = p.2 + sumEndCounts rest := by
  simp [sumEndCounts]

theorem sumRoutes_cons (p : String × EndCounts) (rest : RouteMap) :
    sumRoutes (p :: rest) = sumEndCounts p.2 + sumRoutes rest := by
  simp [sumRoutes]

theorem sumStart_updateStationRec (cell : List StationStat) (name : String)
    (b : Bool) :
    sumStart (updateStationRec cell name b) =
      sumStart cell + if b then 1 else 0 := by
  induction cell with
  | nil => cases b <;> simp [updateStationRec, sumStart]
  | cons r rs ih =>
    by_cases h : r.name = name
    · cases b <;> simp [updateStationRec, h, bumpStation, sumStart] <;> omega
    · simp only [updateStationRec, if_neg h, sumStart_cons]
      rw [ih]
      omega

theorem sumEnd_updateStationRec (cell : List StationStat) (name : String)
    (b : Bool) :
    sumEnd (updateStationRec cell name b) =
      sumEnd cell + if b then 0 else 1 := by
  induction cell with
  | nil => cases b <;> simp [updateStationRec, sumEnd]
  | cons r rs ih =>
    by_cases h : r.name = name
    · cases b <;> simp [updateStationRec, h, bumpStation, sumEnd] <;> omega
    · simp only [updateStationRec, if_neg h, sumEnd_cons]
      rw [ih]
      omega

theorem sumStart_tripStations (cell : List StationStat) (t : Trip)
    (hs : t.start_station_name ≠ "") (he : t.end_station_name ≠ "") :
    sumStart (tripStations cell t) = sumStart cell + 1 := by
  unfold tripStations updateStation
  simp [hs, he, sumStart_updateStationRec]

theorem sumEnd_tripStations (cell : List StationStat) (t : Trip)
    (hs : t.start_station_name ≠ "") (he : t.end_station_name ≠ "") :
    sumEnd (tripStations cell t) = sumEnd cell + 1 := by
  unfold tripStations updateStation
  simp [hs, he, sumEnd_updateStationRec]

theorem sumEndCounts_bumpEnd (m : EndCounts) (e : String) :
    sumEndCounts (bumpEnd m e) = sumEndCounts m + 1 := by
  induction m with
  | nil => simp [bumpEnd, sumEndCounts]
  | cons p rest ih =>
    obtain ⟨n, c⟩ := p
    by_cases h : n = e
    · simp [bumpEnd, h, sumEndCounts]
      omega
    · simp only [bumpEnd, if_neg h, sumEndCounts_cons]
      rw [ih]
      omega

theorem sumRoutes_addRoute (rm : RouteMap) (s e : String) :
    sumRoutes (addRoute rm s e) = sumRoutes rm + 1 := by
  induction rm with
  | nil => simp [addRoute, sumRoutes, bumpEnd, sumEndCounts]
  | cons p rest ih =>
    obtain ⟨n, m⟩ := p
    by_cases h : n = s
    · simp [addRoute, h, sumRoutes, sumEndCounts_bumpEnd]
      omega
    · simp only [addRoute, if_neg h, sumRoutes_cons]
      rw [ih]
      omega

theorem sums_stepTrip (st : CacheState) (mm : Fin 12) (t : Trip)
    (mem : MemberKey) (mk : MonthKey)
    (hs : t.start_station_name ≠ "") (he : t.end_station_name ≠ "") :
    sumStart (CacheState.stationAgg (stepTrip st mm t) mem mk) =
        sumStart (st.stationAgg mem mk) +
          (if applies mem mk mm t then 1 else 0) ∧
      sumEnd (CacheState.stationAgg (stepTrip st mm t) mem mk) =
        sumEnd (st.stationAgg mem mk) +
          (if applies mem mk mm t then 1 else 0) ∧
      sumRoutes (CacheState.endRoutes (stepTrip st mm t) mem mk) =
        sumRoutes (st.endRoutes mem mk) +
          (if applies mem mk mm t then 1 else 0) := by
  by_cases happ : (memApplies mem t.member_type && monthApplies mk mm) = true
  · have h2 := happ
    rw [Bool.and_eq_true] at h2
    simp [stepTrip, applies, h2.1, h2.2, sumStart_tripStations _ _ hs he,
      sumEnd_tripStations _ _ hs he, sumRoutes_addRoute]
  · have h2 := happ
    rw [Bool.and_eq_true] at h2
    simp [stepTrip, applies, h2, sumStart_tripStations _ _ hs he,
      sumEnd_tripStations _ _ hs he, sumRoutes_addRoute]

theorem sums_foldTrips (mm : Fin 12) (mem : MemberKey) (mk : MonthKey) :
    ∀ (trips : List Trip) (st : CacheState),
      (∀ t ∈ trips, t.start_station_name ≠ "" ∧ t.end_station_name ≠ "") →
      sumStart (CacheState.stationAgg
            (trips.foldl (fun s t => stepTrip s mm t) st) mem mk) =
          sumStart (st.stationAgg mem mk) +
            (trips.filter (fun t => applies mem mk mm t)).length ∧
        sumEnd (CacheState.stationAgg
            (trips.foldl (fun s t => stepTrip s mm t) st) mem mk) =
          sumEnd (st.stationAgg mem mk) +
            (trips.filter (fun t => applies mem mk mm t)).length ∧
        sumRoutes (CacheState.endRoutes
            (trips.foldl (fun s t => stepTrip s mm t) st) mem mk) =
          sumRoutes (st.endRoutes mem mk) +
            (trips.filter (fun t => applies mem mk mm t)).length := by
  intro trips
  induction trips with
  | nil => intro st _; simp
  | cons t ts ih =>
    intro st h
    obtain ⟨hs, he⟩ := h t (by simp)
    obtain ⟨s1, s2, s3⟩ := sums_stepTrip st mm t mem mk hs he
    obtain ⟨i1, i2, i3⟩ := ih (stepTrip st mm t)
      (fun t' ht' => h t' (List.mem_cons_of_mem _ ht'))
    simp only [List.foldl_cons, List.filter_cons]
    by_cases ha : applies mem mk mm t <;>
      · simp only [ha, if_pos, if_neg, ite_true, ite_false, List.length_cons]
        refine ⟨?_, ?_, ?_⟩ <;> simp_all <;> omega

theorem sums_foldMonths (mem : MemberKey) (mk : MonthKey) :
    ∀ (d : List MonthData) (st : CacheState),
      (∀ md ∈ d, ∀ t ∈ md.2,
        t.start_station_name ≠ "" ∧ t.end_station_name ≠ "") →
      sumStart (CacheState.stationAgg (d.foldl stepMonth st) mem mk) =
          sumStart (st.stationAgg mem mk) + contrib mem mk d ∧
        sumEnd (CacheState.stationAgg (d.foldl stepMonth st) mem mk) =
          sumEnd (st.stationAgg mem mk) + contrib mem mk d ∧
        sumRoutes (CacheState.endRoutes (d.foldl stepMonth st) mem mk) =
          sumRoutes (st.endRoutes mem mk) + contrib mem mk d := by
  intro d
  induction d with
  | nil => intro st _; simp [contrib]
  | cons md ds ih =>
    intro st h
    obtain ⟨s1, s2, s3⟩ := sums_foldTrips md.1 mem mk md.2 st
      (fun t ht => h md (by simp) t ht)
    obtain ⟨i1, i2, i3⟩ := ih (stepMonth st md)
      (fun md' hmd' t ht => h md' (List.mem_cons_of_mem _ hmd') t ht)
    simp only [List.foldl_cons, contrib, List.map_cons, List.sum_cons]
    rw [show (ds.map (contribMonth mem mk)).sum = contrib mem mk ds from rfl]
    refine ⟨?_, ?_, ?_⟩ <;> simp_all [stepMonth, contribMonth] <;> omega

/-- C10: after `buildCaches` completes on cleaned data, in every
`(member filter, month filter)` cell the sum of `start` counts over all
stations, the sum of `end` counts over all stations, and the sum of all route
counts in the cell's start-to-end map are all equal to the number of trip
contributions fanned out into the cell. -/
theorem buildCaches_balance (d : List MonthData)
    (hclean : ∀ md ∈ d, ∀ t ∈ md.2,
      t.start_station_name ≠ "" ∧ t.end_station_name ≠ "") :
    ∀ mem mk,
      sumStart (CacheState.stationAgg (buildCaches d) mem mk) =
          contrib mem mk d ∧
        sumEnd (CacheState.stationAgg (buildCaches d) mem mk) =
          contrib mem mk d ∧
        sumRoutes (CacheState.endRoutes (buildCaches d) mem mk) =
          contrib mem mk d := by
  intro mem mk
  have h := sums_foldMonths mem mk d emptyCache hclean
  simpa [buildCaches, emptyCache, sumStart, sumEnd, sumRoutes] using h

/-- Witness for C10 on a small concrete dataset. -/
theorem buildCaches_balance_witness :
    (∀ md ∈ ([(0, [Trip.mk "A" "B" .Annual, Trip.mk "A" "C" .Casual]),
        (3, [Trip.mk "B" "A" .Other])] : List MonthData), ∀ t ∈ md.2,
      t.start_station_name ≠ "" ∧ t.end_station_name ≠ "") ∧
      ∀ mem mk,
        sumStart (CacheState.stationAgg
            (buildCaches [(0, [Trip.mk "A" "B" .Annual, Trip.mk "A" "C" .Casual]),
              (3, [Trip.mk "B" "A" .Other])]) mem mk) =
            contrib mem mk [(0, [Trip.mk "A" "B" .Annual, Trip.mk "A" "C" .Casual]),
              (3, [Trip.mk "B" "A" .Other])] ∧
          sumEnd (CacheState.stationAgg
            (buildCaches [(0, [Trip.mk "A" "B" .Annual, Trip.mk "A" "C" .Casual]),
              (3, [Trip.mk "B" "A" .Other])]) mem mk) =
            contrib mem mk [(0, [Trip.mk "A" "B" .Annual, Trip.mk "A" "C" .Casual]),
              (3, [Trip.mk "B" "A" .Other])] ∧
          sumRoutes (CacheState.endRoutes
            (buildCaches [(0, [Trip.mk "A" "B" .Annual, Trip.mk "A" "C" .Casual]),
              (3, [Trip.mk "B" "A" .Other])]) mem mk) =
            contrib mem mk [(0, [Trip.mk "A" "B" .Annual, Trip.mk "A" "C" .Casual]),
              (3, [Trip.mk "B" "A" .Other])] :=
  ⟨by decide, buildCaches_balance _ (by decide)⟩

/-- A node of the visible network as assembled in `updateVis`:
`{ id, name, start, end, total: start + end }` (`id` always equals `name` and
is omitted). -/
structure NodeV where
  name : String
  start : Nat
  endC : Nat
  total : Nat
deriving DecidableEq, Repr

/-- Source `Array.from(aggMap.values()).map(...)`: the station records of a
cell in insertion order, with `total` precomputed. -/
def cellNodes (cell : List StationStat) : List NodeV :=
  cell.map (fun r => ⟨r.name, r.start, r.endC, r.start + r.endC⟩)

/-- The stable JS `Array.prototype.sort` with comparator
`(a,b) => key(b) - key(a)` (descending by `key`, ties kept in original
order), embedded as insertion sort with the total preorder
`fun a b => key b ≤ key a`. -/
def jsSortDesc (key : α → Nat) (l : List α) : List α :=
  List.insertionSort (fun a b => key b ≤ key a) l

/-- Source `const MAX_NODES = 60`. -/
def MAX_NODES : Nat := 60

/-- Node selection of `updateVis`:
`nodes.sort((a,b) => b.total - a.total); nodes.slice(0, MAX_NODES)`. -/
def selectNodes (cell : List StationStat) : List NodeV :=
  (jsSortDesc (fun n => n.total) (cellNodes cell)).take MAX_NODES

theorem jsSortDesc_sorted (key : α → Nat) (l : List α) :
    (jsSortDesc key l).Sorted (fun a b => key b ≤ key a) := by
  haveI : IsTotal α (fun a b => key b ≤ key a) :=
    ⟨fun a b => (le_total (key b) (key a)).imp id id⟩
  haveI : IsTrans α (fun a b => key b ≤ key a) :=
    ⟨fun _ _ _ hab hbc => le_trans hbc hab⟩
  exact List.sorted_insertionSort _ l

theorem jsSortDesc_perm (key : α → Nat) (l : List α) :
    (jsSortDesc key l).Perm l :=
  List.perm_insertionSort _ l

/-- C5 (amended): node selection sorts the cell's stations descending by
`total` with the stable sort (ties stay in cache insertion order) and keeps
the first 60 (all of them when fewer exist); every kept node's total is at
least every dropped node's total. -/
theorem selectNodes_spec (cell : List StationStat) :
    (selectNodes cell).length = min MAX_NODES (cellNodes cell).length ∧
      (selectNodes cell).Sorted (fun a b => b.total ≤ a.total) ∧
      ∀ a ∈ selectNodes cell,
        ∀ b ∈ (jsSortDesc (fun n => n.total) (cellNodes cell)).drop MAX_NODES,
          b.total ≤ a.total := by
  refine ⟨?_, ?_, ?_⟩
  · rw [selectNodes, List.length_take,
      (jsSortDesc_perm (fun n => n.total) (cellNodes cell)).length_eq]
  · have hs := jsSortDesc_sorted (fun n : NodeV => n.total) (cellNodes cell)
    exact hs.sublist (List.take_sublist _ _)
  · intro a ha b hb
    have hsorted := jsSortDesc_sorted (fun n => n.total) (cellNodes cell)
    rw [← List.take_append_drop MAX_NODES
      (jsSortDesc (fun n => n.total) (cellNodes cell))] at hsorted
    exact (List.pairwise_append.mp hsorted).2.2 a ha b hb

/-- Lexicographic (code-point) comparison of two character lists; used to
state the spec's claimed "name ascending" tie-break order. -/
def nameLtChars : List Char → List Char → Bool
  | [], [] => false
  | [], _ :: _ => true
  | _ :: _, [] => false
  | c :: cs, d :: ds =>
    if c.toNat < d.toNat then true
    else if d.toNat < c.toNat then false
    else nameLtChars cs ds

/-- Lexicographically-smaller test on station names. -/
def nameLt (a b : String) : Bool := nameLtChars a.data b.data

/-- Dataset for the C5 counterexample: a single trip `B → A` makes station
`B` enter the cell map before `A`, both with total 1. -/
def c5data : List MonthData := [(0, [Trip.mk "B" "A" .Annual])]

/-- C5 is false as stated: on `c5data` the cell has two stations with equal
totals, and the selection keeps them in cache insertion order `[B, A]`, not
in the claimed name-ascending tie order `[A, B]`. -/
theorem selectNodes_tiebreak_cex :
    selectNodes (CacheState.stationAgg (buildCaches c5data) .All none) =
        [⟨"B", 1, 0, 1⟩, ⟨"A", 0, 1, 1⟩] ∧
      ¬ List.Sorted (fun a b =>
            b.total < a.total ∨ (a.total = b.total ∧ nameLt a.name b.name = true))
          (selectNodes (CacheState.stationAgg (buildCaches c5data) .All none)) := by
  constructor
  · decide
  · decide

/-- An edge of the visible network: `{ source, target, value }`. -/
structure LinkV where
  source : String
  target : String
  value : Nat
deriving DecidableEq, Repr

/-- Lookup `routes[src.name]`: the inner route map of one start station (`[]` when
absent, in which case the source's `if (!m) continue;` produces no links,
exactly as iterating an empty map does). -/
def routesFrom : RouteMap → String → EndCounts
  | [], _ => []
  | (n, m) :: rest, s => if n = s then m else routesFrom rest s

/-- Source `const TOP_LINKS_PER_SOURCE = 5`. -/
def TOP_LINKS_PER_SOURCE : Nat := 5

/-- Link-candidate generation of `updateVis` (`linksRaw`): for each kept node,
sort its route entries descending by count (stable), keep only the top 5
unless this is the selected station of detail mode, and keep only targets that
are themselves kept nodes. -/
def linksRawFor (nodes : List NodeV) (rm : RouteMap) (isDetail : Bool)
    (sel : Option String) : List LinkV :=
  let included := nodes.map (fun n => n.name)
  nodes.flatMap (fun src =>
    let arr := jsSortDesc (fun p => p.2) (routesFrom rm src.name)
    let arr2 := if !(isDetail && sel == some src.name) then
        arr.take TOP_LINKS_PER_SOURCE
      else arr
    (arr2.filter (fun p => included.contains p.1)).map
      (fun p => ⟨src.name, p.1, p.2⟩))

/-- Source `values.sort((a,b) => a - b)`: ascending sort of the candidate weights. -/
def jsSortAsc (l : List Nat) : List Nat := List.insertionSort (· ≤ ·) l

/-- Embedding of `d3.quantileSorted(values, p)` (linear interpolation between adjacent
ranks, quantile type 7), with the convention that the code only calls it on a
nonempty array (`if (values.length)`); the `[]` case returns 0 like the
`|| 0` guard at the call site. -/
def quantileSorted (values : List Nat) (p : ℚ) : ℚ :=
  match values with
  | [] => 0
  | v0 :: rest =>
    if p ≤ 0 ∨ rest = [] then (v0 : ℚ)
    else if 1 ≤ p then ((v0 :: rest).getLast (List.cons_ne_nil v0 rest) : ℚ)
    else
      let n : Nat := (v0 :: rest).length
      let i : ℚ := ((n : ℚ) - 1) * p
      let i0 : Nat := (⌊i⌋).toNat
      let a : ℚ := (((v0 :: rest).getD i0 0 : ℕ) : ℚ)
      let b : ℚ := (((v0 :: rest).getD (i0 + 1) 0 : ℕ) : ℚ)
      a + (b - a) * (i - (i0 : ℚ))

/-- The percentile-to-count mapping of `updateVis`:
`thresholdCount = Math.floor(d3.quantileSorted(values, p) || 0)` where
`values` is the ascending sort of the `linksRaw` weights and
`p = state.minRoutePercent / 100`; `thresholdCount` stays 0 when there are no
candidate values.  This is what is stored into `state.minRouteCount` and shown
in the slider label. -/
def thresholdFor (links : List LinkV) (percent : ℚ) : Nat :=
  if jsSortAsc (links.map (fun l => l.value)) = [] then 0
  else (⌊quantileSorted (jsSortAsc (links.map (fun l => l.value)))
    (percent / 100)⌋).toNat

/-- The `links` binding of `updateVis`: in detail mode keep the selected
station's outgoing candidates unfiltered; otherwise drop candidates whose
weight is strictly below the mapped threshold count. -/
def linksAfterFilter (nodes : List NodeV) (rm : RouteMap) (isDetail : Bool)
    (sel : Option String) (percent : ℚ) : List LinkV :=
  let raw := linksRawFor nodes rm isDetail sel
  match isDetail, sel with
  | true, some s => raw.filter (fun l => l.source == s)
  | _, _ => raw.filter (fun l => thresholdFor raw percent ≤ l.value)

/-- The `nodesVis` binding of `updateVis`: outside detail mode, when the
hide-low-activity toggle is on, keep only nodes touching a surviving link. -/
def nodesVisFor (nodes : List NodeV) (links : List LinkV)
    (isDetail hide : Bool) : List NodeV :=
  if !isDetail && hide then
    let keep := links.flatMap (fun l => [l.source, l.target])
    nodes.filter (fun n => keep.contains n.name)
  else nodes

/-- The `linksView` binding of `updateVis`: outside detail mode, when the
hide-low-activity toggle is on, keep only links between visible nodes. -/
def linksViewFor (links : List LinkV) (nodesVis : List NodeV)
    (isDetail hide : Bool) : List LinkV :=
  if !isDetail && hide then
    let keepNames := nodesVis.map (fun n => n.name)
    links.filter (fun l =>
      keepNames.contains l.source && keepNames.contains l.target)
  else links

/-- The full link derivation of `updateVis` for the current cache cell and
controls: candidates, threshold / detail filter, then the hide-low-nodes
reduction. -/
def updateVisLinks (st : CacheState) (mem : MemberKey) (mk : MonthKey)
    (isDetail : Bool) (sel : Option String) (percent : ℚ) (hide : Bool) :
    List LinkV :=
  let nodes := selectNodes (st.stationAgg mem mk)
  let links := linksAfterFilter nodes (st.endRoutes mem mk) isDetail sel percent
  linksViewFor links (nodesVisFor nodes links isDetail hide) isDetail hide

/-- The detail-mode top-5 computation of `updateVis`:
`selectedLinks.sort((a,b) => b.value - a.value)` then `.slice(0, 5)`. -/
def detailTop (st : CacheState) (mem : MemberKey) (mk : MonthKey)
    (sel : String) (percent : ℚ) : List LinkV :=
  let nodes := selectNodes (st.stationAgg mem mk)
  let links := linksAfterFilter nodes (st.endRoutes mem mk) true (some sel)
    percent
  (jsSortDesc (fun l => l.value)
    (links.filter (fun l => l.source == sel))).take 5

/-- C3 (amended): in detail mode for a selected station the percentile
threshold and the hide-low-activity reduction are never applied — the derived
link set is identical for every slider position and toggle state — and the
emphasized top set holds at most 5 of the station's outgoing edges, ranked by
weakly descending trip count with ties kept in route-map encounter order (the
stable sort), not in destination-name order. -/
theorem detailMode_spec (st : CacheState) (mem : MemberKey) (mk : MonthKey)
    (s : String) (p p' : ℚ) (hide hide' : Bool) :
    updateVisLinks st mem mk true (some s) p hide =
        updateVisLinks st mem mk true (some s) p' hide' ∧
      (detailTop st mem mk s p).length ≤ 5 ∧
      List.Sorted (fun a b => b.value ≤ a.value) (detailTop st mem mk s p) := by
  refine ⟨rfl, ?_, ?_⟩
  · exact List.length_take_le _ _
  · have hs := jsSortDesc_sorted (fun l : LinkV => l.value)
      ((linksAfterFilter (selectNodes (st.stationAgg mem mk))
        (st.endRoutes mem mk) true (some s) p).filter
          (fun l => l.source == s))
    exact hs.sublist (List.take_sublist _ _)

/-- Dataset for the C3 counterexample: two trips from `S`, first to `B`,
then to `A`, both counting 1. -/
def c3data : List MonthData :=
  [(0, [Trip.mk "S" "B" .Annual, Trip.mk "S" "A" .Annual])]

/-- C3 is false as stated: on `c3data` the detail view of `S` ranks its two
equal-weight edges in route-map encounter order `[S→B, S→A]`, not in the
claimed destination-name-ascending order `[S→A, S→B]`. -/
theorem detailMode_tiebreak_cex :
    detailTop (buildCaches c3data) .All none "S" 0 =
        [⟨"S", "B", 1⟩, ⟨"S", "A", 1⟩] ∧
      ¬ List.Sorted (fun a b : LinkV =>
            b.value < a.value ∨ (a.value = b.value ∧ nameLt a.target b.target = true))
          (detailTop (buildCaches c3data) .All none "S" 0) := by
  constructor
  · decide
  · decide

theorem jsSortAsc_sorted (l : List Nat) : (jsSortAsc l).Sorted (· ≤ ·) :=
  List.sorted_insertionSort _ l

theorem jsSortAsc_perm (l : List Nat) : (jsSortAsc l).Perm l :=
  List.perm_insertionSort _ l

theorem getD_mono_of_sorted {l : List Nat} (hs : l.Sorted (· ≤ ·)) {i j : Nat}
    (hij : i ≤ j) (hj : j < l.length) : l.getD i 0 ≤ l.getD j 0 := by
  have hi : i < l.length := lt_of_le_of_lt hij hj
  rw [List.getD_eq_getElem l 0 hi, List.getD_eq_getElem l 0 hj]
  rcases lt_or_eq_of_le hij with hlt | heq
  · exact List.pairwise_iff_getElem.mp hs i j hi hj hlt
  · subst heq; exact le_refl _

theorem getLast_eq_getD (l : List Nat) (h : l ≠ []) :
    l.getLast h = l.getD (l.length - 1) 0 := by
  rw [List.getLast_eq_getElem l h,
    List.getD_eq_getElem l 0 (Nat.sub_lt (List.length_pos.mpr h) one_pos)]

/-- Interior linear-interpolation formula of `d3.quantileSorted` at rank
position `x = (n - 1) * p`. -/
def interpAt (l : List Nat) (x : ℚ) : ℚ :=
  ((l.getD (⌊x⌋).toNat 0 : ℕ) : ℚ) +
    (((l.getD ((⌊x⌋).toNat + 1) 0 : ℕ) : ℚ) -
        ((l.getD (⌊x⌋).toNat 0 : ℕ) : ℚ)) *
      (x - ((⌊x⌋).toNat : ℚ))

theorem quantileSorted_of_nonpos (v0 : Nat) (rest : List Nat) {p : ℚ}
    (hp : p ≤ 0 ∨ rest = []) :
    quantileSorted (v0 :: rest) p = (v0 : ℚ) := by
  simp only [quantileSorted]
  rw [if_pos hp]

theorem quantileSorted_of_one_le (v0 : Nat) (rest : List Nat)
    (hrest : rest ≠ []) {p : ℚ} (hp : 1 ≤ p) :
    quantileSorted (v0 :: rest) p =
      (((v0 :: rest).getLast (List.cons_ne_nil v0 rest) : ℕ) : ℚ) := by
  have h1 : ¬(p ≤ 0 ∨ rest = []) := by
    push_neg
    exact ⟨lt_of_lt_of_le one_pos hp, hrest⟩
  simp only [quantileSorted]
  rw [if_neg h1, if_pos hp]

theorem quantileSorted_interior (v0 : Nat) (rest : List Nat)
    (hrest : rest ≠ []) {p : ℚ} (h0 : 0 < p) (h1 : p < 1) :
    quantileSorted (v0 :: rest) p =
      interpAt (v0 :: rest) ((((v0 :: rest).length : ℚ) - 1) * p) := by
  have hc1 : ¬(p ≤ 0 ∨ rest = []) := by
    push_neg
    exact ⟨h0, hrest⟩
  simp only [quantileSorted]
  rw [if_neg hc1, if_neg (not_le.mpr h1)]
  rfl

theorem floor_toNat_add_one_lt {l : List Nat} {y : ℚ} (h0 : 0 ≤ y)
    (hy : y < (l.length : ℚ) - 1) : (⌊y⌋).toNat + 1 < l.length := by
  have hf0 : (0 : ℤ) ≤ ⌊y⌋ := Int.floor_nonneg.mpr h0
  have hf1 : ⌊y⌋ < (l.length : ℤ) - 1 := by
    rw [Int.floor_lt]
    push_cast
    exact hy
  omega

theorem interpAt_bounds {l : List Nat} (hs : l.Sorted (· ≤ ·)) {x : ℚ}
    (h0 : 0 ≤ x) (hx : x < (l.length : ℚ) - 1) :
    ((l.getD (⌊x⌋).toNat 0 : ℕ) : ℚ) ≤ interpAt l x ∧
      interpAt l x ≤ ((l.getD ((⌊x⌋).toNat + 1) 0 : ℕ) : ℚ) := by
  have hk1len : (⌊x⌋).toNat + 1 < l.length := floor_toNat_add_one_lt h0 hx
  have hnat : (((⌊x⌋).toNat : ℕ) : ℚ) = ((⌊x⌋ : ℤ) : ℚ) := by
    exact_mod_cast congrArg (Int.cast : ℤ → ℚ)
      (Int.toNat_of_nonneg (Int.floor_nonneg.mpr h0))
  have hfl : (((⌊x⌋).toNat : ℕ) : ℚ) ≤ x := by
    rw [hnat]
    exact Int.floor_le x
  have hfu : x < (((⌊x⌋).toNat : ℕ) : ℚ) + 1 := by
    rw [hnat]
    exact Int.lt_floor_add_one x
  have hab : ((l.getD (⌊x⌋).toNat 0 : ℕ) : ℚ) ≤
      ((l.getD ((⌊x⌋).toNat + 1) 0 : ℕ) : ℚ) := by
    exact_mod_cast getD_mono_of_sorted hs (Nat.le_succ _) hk1len
  have h1 : (0 : ℚ) ≤ ((l.getD ((⌊x⌋).toNat + 1) 0 : ℕ) : ℚ) -
      ((l.getD (⌊x⌋).toNat 0 : ℕ) : ℚ) := sub_nonneg.mpr hab
  have h2 : (0 : ℚ) ≤ x - (((⌊x⌋).toNat : ℕ) : ℚ) := sub_nonneg.mpr hfl
  have h3 : x - (((⌊x⌋).toNat : ℕ) : ℚ) ≤ 1 := by linarith
  constructor
  · have hnn := mul_nonneg h1 h2
    unfold interpAt
    linarith
  · have h4 := mul_le_mul_of_nonneg_left h3 h1
    unfold interpAt
    linarith

theorem interpAt_mono {l : List Nat} (hs : l.Sorted (· ≤ ·)) {x y : ℚ}
    (h0 : 0 ≤ x) (hxy : x ≤ y) (hy : y < (l.length : ℚ) - 1) :
    interpAt l x ≤ interpAt l y := by
  have h0y : 0 ≤ y := le_trans h0 hxy
  have hx : x < (l.length : ℚ) - 1 := lt_of_le_of_lt hxy hy
  have hkk : (⌊x⌋).toNat ≤ (⌊y⌋).toNat :=
    Int.toNat_le_toNat (Int.floor_le_floor hxy)
  rcases eq_or_lt_of_le hkk with heq | hlt
  · have hk1len : (⌊x⌋).toNat + 1 < l.length := floor_toNat_add_one_lt h0 hx
    have hab : ((l.getD (⌊x⌋).toNat 0 : ℕ) : ℚ) ≤
        ((l.getD ((⌊x⌋).toNat + 1) 0 : ℕ) : ℚ) := by
      exact_mod_cast getD_mono_of_sorted hs (Nat.le_succ _) hk1len
    have h1 : (0 : ℚ) ≤ ((l.getD ((⌊x⌋).toNat + 1) 0 : ℕ) : ℚ) -
        ((l.getD (⌊x⌋).toNat 0 : ℕ) : ℚ) := sub_nonneg.mpr hab
    have h5 := mul_le_mul_of_nonneg_left (sub_le_sub_right hxy
      (((⌊x⌋).toNat : ℕ) : ℚ)) h1
    unfold interpAt
    rw [← heq]
    linarith
  · have hb1 := (interpAt_bounds hs h0 hx).2
    have hb2 := (interpAt_bounds hs h0y hy).1
    have hky : (⌊y⌋).toNat < l.length := by
      have := floor_toNat_add_one_lt h0y hy
      omega
    have hmid : ((l.getD ((⌊x⌋).toNat + 1) 0 : ℕ) : ℚ) ≤
        ((l.getD (⌊y⌋).toNat 0 : ℕ) : ℚ) := by
      exact_mod_cast getD_mono_of_sorted hs hlt hky
    linarith

theorem length_two_le (v0 : Nat) (rest : List Nat) (hrest : rest ≠ []) :
    2 ≤ (v0 :: rest).length := by
  cases rest with
  | nil => exact absurd rfl hrest
  | cons a as => simp [List.length_cons]

theorem quantileSorted_ge_head (v0 : Nat) (rest : List Nat)
    (hs : (v0 :: rest).Sorted (· ≤ ·)) (p : ℚ) :
    (v0 : ℚ) ≤ quantileSorted (v0 :: rest) p := by
  rcases eq_or_ne rest [] with rfl | hrest
  · rw [quantileSorted_of_nonpos v0 [] (Or.inr rfl)]
  by_cases hp0 : p ≤ 0
  · rw [quantileSorted_of_nonpos v0 rest (Or.inl hp0)]
  by_cases hp1 : 1 ≤ p
  · rw [quantileSorted_of_one_le v0 rest hrest hp1, getLast_eq_getD]
    have h2 : 2 ≤ (v0 :: rest).length := length_two_le v0 rest hrest
    have := getD_mono_of_sorted hs (Nat.zero_le ((v0 :: rest).length - 1))
      (by omega)
    simpa using this
  · push_neg at hp0 hp1
    have h2 : 2 ≤ (v0 :: rest).length := length_two_le v0 rest hrest
    have hlen1 : (1 : ℚ) ≤ ((v0 :: rest).length : ℚ) - 1 := by
      have : (2 : ℚ) ≤ ((v0 :: rest).length : ℚ) := by exact_mod_cast h2
      linarith
    have hx0 : 0 ≤ (((v0 :: rest).length : ℚ) - 1) * p :=
      mul_nonneg (by linarith) (le_of_lt hp0)
    have hxlt : (((v0 :: rest).length : ℚ) - 1) * p <
        ((v0 :: rest).length : ℚ) - 1 :=
      mul_lt_of_lt_one_right (by linarith) hp1
    rw [quantileSorted_interior v0 rest hrest hp0 hp1]
    have hlow := (interpAt_bounds hs hx0 hxlt).1
    have hk1len := floor_toNat_add_one_lt hx0 hxlt
    have hidx : (⌊(((v0 :: rest).length : ℚ) - 1) * p⌋).toNat <
        (v0 :: rest).length := by omega
    have hhead0 : (v0 :: rest).getD 0 0 ≤
        (v0 :: rest).getD
          (⌊(((v0 :: rest).length : ℚ) - 1) * p⌋).toNat 0 :=
      getD_mono_of_sorted hs (Nat.zero_le _) hidx
    simp only [List.getD_cons_zero] at hhead0
    have hhead : ((v0 : ℕ) : ℚ) ≤
        (((v0 :: rest).getD
          (⌊(((v0 :: rest).length : ℚ) - 1) * p⌋).toNat 0 : ℕ) : ℚ) := by
      exact_mod_cast hhead0
    linarith

theorem quantileSorted_le_getLast (v0 : Nat) (rest : List Nat)
    (hs : (v0 :: rest).Sorted (· ≤ ·)) (p : ℚ) :
    quantileSorted (v0 :: rest) p ≤
      (((v0 :: rest).getLast (List.cons_ne_nil v0 rest) : ℕ) : ℚ) := by
  rcases eq_or_ne rest [] with rfl | hrest
  · rw [quantileSorted_of_nonpos v0 [] (Or.inr rfl)]
    simp [List.getLast]
  by_cases hp0 : p ≤ 0
  · rw [quantileSorted_of_nonpos v0 rest (Or.inl hp0), getLast_eq_getD]
    have h2 : 2 ≤ (v0 :: rest).length := length_two_le v0 rest hrest
    have := getD_mono_of_sorted hs (Nat.zero_le ((v0 :: rest).length - 1))
      (by omega)
    simpa using this
  by_cases hp1 : 1 ≤ p
  · rw [quantileSorted_of_one_le v0 rest hrest hp1]
  · push_neg at hp0 hp1
    have h2 : 2 ≤ (v0 :: rest).length := length_two_le v0 rest hrest
    have hlen1 : (1 : ℚ) ≤ ((v0 :: rest).length : ℚ) - 1 := by
      have : (2 : ℚ) ≤ ((v0 :: rest).length : ℚ) := by exact_mod_cast h2
      linarith
    have hx0 : 0 ≤ (((v0 :: rest).length : ℚ) - 1) * p :=
      mul_nonneg (by linarith) (le_of_lt hp0)
    have hxlt : (((v0 :: rest).length : ℚ) - 1) * p <
        ((v0 :: rest).length : ℚ) - 1 :=
      mul_lt_of_lt_one_right (by linarith) hp1
    rw [quantileSorted_interior v0 rest hrest hp0 hp1, getLast_eq_getD]
    have hhigh := (interpAt_bounds hs hx0 hxlt).2
    have hk1len := floor_toNat_add_one_lt hx0 hxlt
    have hidx : (⌊(((v0 :: rest).length : ℚ) - 1) * p⌋).toNat + 1 ≤
        (v0 :: rest).length - 1 := by omega
    have hlen0 : (v0 :: rest).length - 1 < (v0 :: rest).length := by omega
    have htail0 : (v0 :: rest).getD
        ((⌊(((v0 :: rest).length : ℚ) - 1) * p⌋).toNat + 1) 0 ≤
        (v0 :: rest).getD ((v0 :: rest).length - 1) 0 :=
      getD_mono_of_sorted hs hidx hlen0
    have htail : (((v0 :: rest).getD
        ((⌊(((v0 :: rest).length : ℚ) - 1) * p⌋).toNat + 1) 0 : ℕ) : ℚ) ≤
        (((v0 :: rest).getD ((v0 :: rest).length - 1) 0 : ℕ) : ℚ) := by
      exact_mod_cast htail0
    linarith

theorem quantileSorted_mono {values : List Nat} (hs : values.Sorted (· ≤ ·))
    {p q : ℚ} (hpq : p ≤ q) :
    quantileSorted values p ≤ quantileSorted values q := by
  cases values with
  | nil => simp [quantileSorted]
  | cons v0 rest =>
    rcases eq_or_ne rest [] with rfl | hrest
    · rw [quantileSorted_of_nonpos v0 [] (Or.inr rfl),
        quantileSorted_of_nonpos v0 [] (Or.inr rfl)]
    by_cases hp0 : p ≤ 0
    · rw [quantileSorted_of_nonpos v0 rest (Or.inl hp0)]
      exact quantileSorted_ge_head v0 rest hs q
    by_cases hq1 : 1 ≤ q
    · rw [quantileSorted_of_one_le v0 rest hrest hq1]
      exact quantileSorted_le_getLast v0 rest hs p
    · push_neg at hp0 hq1
      have hp1 : p < 1 := lt_of_le_of_lt hpq hq1
      have hq0 : 0 < q := lt_of_lt_of_le hp0 hpq
      rw [quantileSorted_interior v0 rest hrest hp0 hp1,
        quantileSorted_interior v0 rest hrest hq0 hq1]
      have h2 : 2 ≤ (v0 :: rest).length := length_two_le v0 rest hrest
      have hlen1 : (1 : ℚ) ≤ ((v0 :: rest).length : ℚ) - 1 := by
        have : (2 : ℚ) ≤ ((v0 :: rest).length : ℚ) := by exact_mod_cast h2
        linarith
      apply interpAt_mono hs
      · exact mul_nonneg (by linarith) (le_of_lt hp0)
      · exact mul_le_mul_of_nonneg_left hpq (by linarith)
      · exact mul_lt_of_lt_one_right (by linarith) hq1

theorem thresholdFor_mono (links : List LinkV) {p1 p2 : ℚ} (h : p1 ≤ p2) :
    thresholdFor links p1 ≤ thresholdFor links p2 := by
  unfold thresholdFor
  by_cases hv : jsSortAsc (links.map (fun l => l.value)) = []
  · simp [hv]
  · rw [if_neg hv, if_neg hv]
    have hsorted := jsSortAsc_sorted (links.map (fun l => l.value))
    have hdiv : p1 / 100 ≤ p2 / 100 := by linarith
    exact Int.toNat_le_toNat (Int.floor_le_floor
      (quantileSorted_mono hsorted hdiv))

theorem linksAfterFilter_overview (nodes : List NodeV) (rm : RouteMap)
    (sel : Option String) (percent : ℚ) :
    linksAfterFilter nodes rm false sel percent =
      (linksRawFor nodes rm false sel).filter
        (fun l => thresholdFor (linksRawFor nodes rm false sel) percent ≤
          l.value) := by
  cases sel <;> rfl

/-- C4: in overview mode, with the trip data, member filter, month filter and
every other control held fixed, raising the percentile slider from `p1` to
`p2` never increases the number of edges surviving the percentile
threshold. -/
theorem percentile_monotone (st : CacheState) (mem : MemberKey)
    (mk : MonthKey) (sel : Option String) {p1 p2 : ℚ} (hnn : 0 ≤ p1)
    (h12 : p1 ≤ p2) (hub : p2 ≤ 100) :
    (linksAfterFilter (selectNodes (st.stationAgg mem mk))
        (st.endRoutes mem mk) false sel p2).length ≤
      (linksAfterFilter (selectNodes (st.stationAgg mem mk))
        (st.endRoutes mem mk) false sel p1).length := by
  rw [linksAfterFilter_overview, linksAfterFilter_overview]
  have hmono := thresholdFor_mono
    (linksRawFor (selectNodes (st.stationAgg mem mk)) (st.endRoutes mem mk)
      false sel) h12
  refine List.Sublist.length_le (List.monotone_filter_right _ ?_)
  intro l hl
  simp only [decide_eq_true_eq] at hl ⊢
  exact le_trans hmono hl

/-- Witness for C4 on a concrete cache and slider positions 0 and 50. -/
theorem percentile_monotone_witness :
    (0 : ℚ) ≤ 0 ∧ (0 : ℚ) ≤ 50 ∧ (50 : ℚ) ≤ 100 ∧
      (linksAfterFilter (selectNodes (CacheState.stationAgg
          (buildCaches [(0, [Trip.mk "A" "B" .Annual])]) .All none))
        (CacheState.endRoutes (buildCaches [(0, [Trip.mk "A" "B" .Annual])])
          .All none) false none 50).length ≤
      (linksAfterFilter (selectNodes (CacheState.stationAgg
          (buildCaches [(0, [Trip.mk "A" "B" .Annual])]) .All none))
        (CacheState.endRoutes (buildCaches [(0, [Trip.mk "A" "B" .Annual])])
          .All none) false none 0).length :=
  ⟨le_refl 0, by norm_num, by norm_num,
    percentile_monotone (buildCaches [(0, [Trip.mk "A" "B" .Annual])])
      .All none none (le_refl 0) (by norm_num) (by norm_num)⟩

/-- C6 (amended): in overview mode the threshold is the floor of the
linearly-interpolated quantile (`d3.quantileSorted`, quantile type 7) of the
ascending-sorted candidate weights at the slider position — not the weight at
a nearest rank; an edge survives iff its weight is at least that literal trip
count (`thresholdFor`, the value stored in `state.minRouteCount` and shown in
the label), so edges strictly below it are dropped, and whenever any candidate
exists at least the heaviest edge always survives. -/
theorem overview_threshold_spec (nodes : List NodeV) (rm : RouteMap)
    (sel : Option String) (percent : ℚ) :
    (∀ l, l ∈ linksAfterFilter nodes rm false sel percent ↔
        l ∈ linksRawFor nodes rm false sel ∧
          thresholdFor (linksRawFor nodes rm false sel) percent ≤ l.value) ∧
      (linksRawFor nodes rm false sel ≠ [] →
        linksAfterFilter nodes rm false sel percent ≠ []) := by
  constructor
  · intro l
    rw [linksAfterFilter_overview, List.mem_filter]
    simp
  · intro hne
    have hmapne : (linksRawFor nodes rm false sel).map (fun l => l.value) ≠
        [] := by
      simpa using hne
    have hvne : jsSortAsc ((linksRawFor nodes rm false sel).map
        (fun l => l.value)) ≠ [] := by
      intro h
      have hlen := (jsSortAsc_perm ((linksRawFor nodes rm false sel).map
        (fun l => l.value))).length_eq
      rw [h] at hlen
      exact hmapne (List.length_eq_zero.mp hlen.symm)
    obtain ⟨v0, rest, hval⟩ : ∃ v0 rest,
        jsSortAsc ((linksRawFor nodes rm false sel).map
          (fun l => l.value)) = v0 :: rest := by
      cases hl : jsSortAsc ((linksRawFor nodes rm false sel).map
        (fun l => l.value)) with
      | nil => exact absurd hl hvne
      | cons a as => exact ⟨a, as, rfl⟩
    have hs : (v0 :: rest).Sorted (· ≤ ·) := hval ▸ jsSortAsc_sorted _
    have hqle := quantileSorted_le_getLast v0 rest hs (percent / 100)
    have ht : thresholdFor (linksRawFor nodes rm false sel) percent ≤
        (v0 :: rest).getLast (List.cons_ne_nil v0 rest) := by
      unfold thresholdFor
      rw [hval, if_neg (List.cons_ne_nil v0 rest)]
      have h1 : ⌊quantileSorted (v0 :: rest) (percent / 100)⌋ ≤
          (((v0 :: rest).getLast (List.cons_ne_nil v0 rest) : ℕ) : ℤ) := by
        have h2 := Int.floor_le_floor hqle
        rwa [Int.floor_natCast] at h2
      omega
    have hmem : (v0 :: rest).getLast (List.cons_ne_nil v0 rest) ∈
        (linksRawFor nodes rm false sel).map (fun l => l.value) := by
      have hmem0 : (v0 :: rest).getLast (List.cons_ne_nil v0 rest) ∈
          jsSortAsc ((linksRawFor nodes rm false sel).map
            (fun l => l.value)) := by
        rw [hval]
        exact List.getLast_mem _
      exact (jsSortAsc_perm _).mem_iff.mp hmem0
    obtain ⟨l, hlraw, hlval⟩ := List.mem_map.mp hmem
    have hlin : l ∈ linksAfterFilter nodes rm false sel percent := by
      rw [linksAfterFilter_overview, List.mem_filter]
      refine ⟨hlraw, ?_⟩
      simp only [decide_eq_true_eq]
      rw [hlval]
      exact ht
    exact List.ne_nil_of_mem hlin

/-- Dataset for the C6 counterexample: four trips `A → B` and one trip
`C → D` give candidate edge weights `[1, 4]`. -/
def c6data : List MonthData :=
  [(0, [Trip.mk "A" "B" .Annual, Trip.mk "A" "B" .Annual,
    Trip.mk "A" "B" .Annual, Trip.mk "A" "B" .Annual,
    Trip.mk "C" "D" .Annual])]

/-- Candidate links of the C6 counterexample in overview mode. -/
def c6raw : List LinkV :=
  linksRawFor
    (selectNodes (CacheState.stationAgg (buildCaches c6data) .All none))
    (CacheState.endRoutes (buildCaches c6data) .All none) false none

/-- C6 is false as stated: at slider position 50 on weights `[1, 4]` the code
maps the percentile to `floor(1 + (4 - 1) * 0.5) = 2`, which is not the weight
at any rank of the candidate list — the mapping is linear interpolation
between adjacent ranks (floored), not nearest-rank. -/
theorem threshold_not_nearest_rank_cex :
    thresholdFor c6raw 50 = 2 ∧ ∀ l ∈ c6raw, l.value ≠ 2 := by
  have hraw : c6raw = [⟨"A", "B", 4⟩, ⟨"C", "D", 1⟩] := by decide
  constructor
  · rw [hraw]
    have hsort : jsSortAsc (([⟨"A", "B", 4⟩, ⟨"C", "D", 1⟩] :
        List LinkV).map (fun l => l.value)) = [1, 4] := by decide
    unfold thresholdFor
    rw [hsort, if_neg (by simp)]
    have hq : quantileSorted [1, 4] ((50 : ℚ) / 100) = 5 / 2 := by
      simp only [quantileSorted]
      rw [if_neg (by norm_num), if_neg (by norm_num)]
      have hf : ⌊((([1, 4] : List ℕ).length : ℚ) - 1) * ((50 : ℚ) / 100)⌋
          = 0 := by
        rw [Int.floor_eq_iff]
        constructor <;> norm_num
      simp only [hf, Int.toNat_zero, List.getD_cons_zero,
        List.getD_cons_succ]
      norm_num
    rw [hq]
    have hf2 : ⌊(5 / 2 : ℚ)⌋ = 2 := by
      rw [Int.floor_eq_iff]
      constructor <;> norm_num
    rw [hf2]
    rfl
  · decide

/-- The mode/selection slice of the mutable `state` object:
`state.isDetail` and `state.selectedStation`. -/
structure ViewState where
  isDetail : Bool
  selectedStation : Option String
deriving DecidableEq, Repr

/-- Source `exitDetailView()`: `state.isDetail = false; state.selectedStation = null`. -/
def exitDetailView (_s : ViewState) : ViewState :=
  { isDetail := false, selectedStation := none }

/-- Source `goToDetail(stationName)`: `state.isDetail = true;
state.selectedStation = stationName`. -/
def goToDetail (_s : ViewState) (stationName : String) : ViewState :=
  { isDetail := true, selectedStation := some stationName }

/-- The `byMonth` checkbox change handler:
`if (state.isDetail) exitDetailView();`. -/
def onByMonthChange (s : ViewState) : ViewState :=
  if s.isDetail then exitDetailView s else s

/-- The month slider input handler:
`if (state.isDetail) exitDetailView();`. -/
def onMonthSliderInput (s : ViewState) : ViewState :=
  if s.isDetail then exitDetailView s else s

/-- A membership radio change handler:
`if (state.isDetail) exitDetailView();`. -/
def onMemberChange (s : ViewState) : ViewState :=
  if s.isDetail then exitDetailView s else s

/-- The back-button click handler: `exitDetailView(); updateVis();`. -/
def onBack (s : ViewState) : ViewState := exitDetailView s

/-- C7: from any `Detail(s)` state, the by-month toggle, the month slider, the
member radio buttons and the explicit back action all transition the view
state machine to `Overview` (`isDetail = false`, `selectedStation = null`);
and after any of these filter handlers the machine is never in detail mode,
whatever the starting state. -/
theorem filters_exit_detail (s : ViewState) :
    (s.isDetail = true →
      onByMonthChange s = ⟨false, none⟩ ∧
        onMonthSliderInput s = ⟨false, none⟩ ∧
        onMemberChange s = ⟨false, none⟩ ∧
        onBack s = ⟨false, none⟩) ∧
      (onByMonthChange s).isDetail = false ∧
      (onMonthSliderInput s).isDetail = false ∧
      (onMemberChange s).isDetail = false ∧
      (onBack s).isDetail = false := by
  cases hd : s.isDetail <;>
    simp [onByMonthChange, onMonthSliderInput, onMemberChange, onBack,
      exitDetailView, hd]

/-- Witness for C7 at a concrete detail state. -/
theorem filters_exit_detail_witness :
    ((goToDetail ⟨false, none⟩ "Union Station").isDetail = true →
      onByMonthChange (goToDetail ⟨false, none⟩ "Union Station") =
          ⟨false, none⟩ ∧
        onMonthSliderInput (goToDetail ⟨false, none⟩ "Union Station") =
          ⟨false, none⟩ ∧
        onMemberChange (goToDetail ⟨false, none⟩ "Union Station") =
          ⟨false, none⟩ ∧
        onBack (goToDetail ⟨false, none⟩ "Union Station") = ⟨false, none⟩) ∧
      (onByMonthChange (goToDetail ⟨false, none⟩ "Union Station")).isDetail
          = false ∧
      (onMonthSliderInput (goToDetail ⟨false, none⟩ "Union Station")).isDetail
          = false ∧
      (onMemberChange (goToDetail ⟨false, none⟩ "Union Station")).isDetail
          = false ∧
      (onBack (goToDetail ⟨false, none⟩ "Union Station")).isDetail = false :=
  filters_exit_detail (goToDetail ⟨false, none⟩ "Union Station")

/-- The demo hub name of `injectSyntheticIfNeeded`. -/
def demoStartName : String := "Demo Station (Synthetic)"

/-- The five synthetic destinations of `injectSyntheticIfNeeded` with their
trip counts, in source order (descending). -/
def syntheticEnds : List (String × Nat) :=
  [("Union Station (Synthetic)", 40), ("Harbourfront (Synthetic)", 30),
    ("Chinatown (Synthetic)", 20), ("Distillery District (Synthetic)", 15),
    ("Kensington Market (Synthetic)", 10)]

/-- The trips assembled by `injectSyntheticIfNeeded`: for each destination,
`count` trips from the demo hub, member types alternating Annual/Casual. -/
def syntheticTrips : List Trip :=
  syntheticEnds.flatMap (fun e =>
    (List.range e.2).map (fun i =>
      ⟨demoStartName, e.1, if i % 2 = 0 then .Annual else .Casual⟩))

/-- Source `injectSyntheticIfNeeded()`: when the total cleaned-trip count across all
loaded months is zero, push a synthetic month bucket (`mm = '09'`, index 8)
holding the demo trips; otherwise leave the data untouched.  The source
defines this function (twice) but never invokes it. -/
def injectSyntheticIfNeeded (allData : List MonthData) : List MonthData :=
  if 0 < (allData.map (fun md => md.2.length)).sum then allData
  else allData ++ [(8, syntheticTrips)]

/-- The initialization chain actually executed on load:
`loadAllCSVs().then(() => { buildCaches(); ... })` — with no call to
`injectSyntheticIfNeeded` anywhere in it. -/
def initCaches (allData : List MonthData) : CacheState := buildCaches allData

/-- Twelve loaded months that produced zero cleaned trips each. -/
def empty12 : List MonthData := (List.finRange 12).map (fun i => (i, []))

/-- C2 (code defect evidence): on the failing input — all 12 months cleaned
to zero trips — the executed initialization chain builds a cache whose every
cell is empty, so no synthetic hub or destinations exist, contradicting the
claimed fallback; had `injectSyntheticIfNeeded` been called it would have
injected (exactly under the zero-total condition) the synthetic month whose
cache holds the demo hub with the five destinations at descending counts
40/30/20/15/10, and it leaves any data with at least one trip untouched. -/
theorem synthetic_fallback_missing :
    (∀ mem mk, CacheState.stationAgg (initCaches empty12) mem mk = []) ∧
      injectSyntheticIfNeeded empty12 = empty12 ++ [(8, syntheticTrips)] ∧
      injectSyntheticIfNeeded [(0, [Trip.mk "A" "B" .Annual])] =
        [(0, [Trip.mk "A" "B" .Annual])] ∧
      ((CacheState.stationAgg
          (buildCaches (injectSyntheticIfNeeded empty12)) .All none).map
        (fun r => r.name)) =
        ([demoStartName] ++ syntheticEnds.map (fun e => e.1)) ∧
      routesFrom (CacheState.endRoutes
          (buildCaches (injectSyntheticIfNeeded empty12)) .All none)
        demoStartName = syntheticEnds := by
  refine ⟨fun mem mk => rfl, by decide, by decide, by decide, by decide⟩

/-- Signed 32-bit wrap of an integer: the JS `| 0` coercion. -/
def toInt32 (x : Int) : Int :=
  if x % 4294967296 < 2147483648 then x % 4294967296
  else x % 4294967296 - 4294967296

/-- The `h = (h * 31 + s.charCodeAt(i)) | 0` string hash of `depthFor`. -/
def hash31 (s : String) : Int :=
  s.data.foldl (fun h c => toInt32 (h * 31 + (c.toNat : Int))) 0

/-- Expression `(h >>> 0) % 1000` in `depthFor`: the hash reinterpreted as an unsigned
32-bit integer, modulo 1000. -/
def hashU1000 (s : String) : Nat :=
  (hash31 s % 4294967296).toNat % 1000

/-- Source `depthFor(name)` of `updateVis`: zero in 2D mode, otherwise a
deterministic per-name depth in `[-zRange/2, zRange/2]` with
`zRange = min(width, height) * 0.6`. -/
def depthFor (mode3d : Bool) (w h : ℚ) (name : String) : ℚ :=
  if !mode3d then 0
  else
    ((hashU1000 name : ℚ) / 999 * 2 - 1) * (min w h * (6 / 10) * (1 / 2))

/-- Result record of `projectXY`: `{ x, y, scale, zCam }`. -/
structure Projected where
  x : ℚ
  y : ℚ
  scale : ℚ
  zCam : ℚ
deriving Repr

/-- Source `projectXY(x, y, z)` of `updateVis`.  The source computes
`cyaw = Math.cos(state.yaw)`, `syaw = Math.sin(state.yaw)`,
`cpit = Math.cos(state.pitch)`, `spit = Math.sin(state.pitch)` once per call;
here those four precomputed values are the rotation parameters, so
quantifying over all yaw and pitch means quantifying over all such
cosine/sine pairs. -/
def projectXY (mode3d : Bool) (w h cyaw syaw cpit spit : ℚ)
    (x y z : ℚ) : Projected :=
  if !mode3d then ⟨x, y, 1, 0⟩
  else
    let cx := w / 2
    let cy := h / 2
    let dx := x - cx
    let dy := y - cy
    let dz := z
    let x1 := dx * cyaw + dz * syaw
    let z1 := -dx * syaw + dz * cyaw
    let y2 := dy * cpit - z1 * spit
    let z2 := dy * spit + z1 * cpit
    let f := min w h * (9 / 10)
    let s := if f + z2 ≠ 0 then f / (f + z2) else 1
    ⟨cx + x1 * s, cy + y2 * s, s, z2⟩

/-- The factor `redraw3d` applies to a node's radius in 3D mode:
`r = Math.max(3, radiusScale(d.total)) * p.scale` where `p` projects the
node's position at its own depth. -/
def nodeScaleFactor (w h cyaw syaw cpit spit x y : ℚ) (name : String) : ℚ :=
  (projectXY true w h cyaw syaw cpit spit x y (depthFor true w h name)).scale

/-- The factor `redraw3d` applies to an edge's stroke width in 3D mode:
`scaleAvg = (ps.scale + pt.scale) / 2` over the projections of the two
endpoints at their own depths. -/
def edgeWidthScaleFactor (w h cyaw syaw cpit spit xs ys : ℚ) (nameS : String)
    (xt yt : ℚ) (nameT : String) : ℚ :=
  ((projectXY true w h cyaw syaw cpit spit xs ys
      (depthFor true w h nameS)).scale +
    (projectXY true w h cyaw syaw cpit spit xt yt
      (depthFor true w h nameT)).scale) / 2

theorem projectXY_zCam_eval (w h cyaw syaw cpit spit x y z : ℚ) :
    (projectXY true w h cyaw syaw cpit spit x y z).zCam =
      (y - h / 2) * spit + (-(x - w / 2) * syaw + z * cyaw) * cpit := by
  simp [projectXY]

theorem projectXY_scale_eval (w h cyaw syaw cpit spit x y z : ℚ) :
    (projectXY true w h cyaw syaw cpit spit x y z).scale =
      if min w h * (9 / 10) +
          (projectXY true w h cyaw syaw cpit spit x y z).zCam ≠ 0 then
        min w h * (9 / 10) /
          (min w h * (9 / 10) +
            (projectXY true w h cyaw syaw cpit spit x y z).zCam)
      else 1 := by
  simp [projectXY]

/-- C8 (amended): in 3D mode the node-radius factor and the edge-stroke
factor coincide for an edge whose two endpoints project to the same
camera-space depth `zCam` (in particular, at yaw = pitch = 0 — rotation
parameters `(1, 0, 1, 0)` — equal computed depths suffice, since then
`zCam = depth`); at nonzero yaw or pitch, equal computed (pre-rotation)
depths alone do not guarantee this, see the counterexample. -/
theorem scale_consistency (w h cyaw syaw cpit spit xs ys xt yt : ℚ)
    (nameS nameT : String)
    (hz : (projectXY true w h cyaw syaw cpit spit xs ys
        (depthFor true w h nameS)).zCam =
      (projectXY true w h cyaw syaw cpit spit xt yt
        (depthFor true w h nameT)).zCam) :
    edgeWidthScaleFactor w h cyaw syaw cpit spit xs ys nameS xt yt nameT =
        nodeScaleFactor w h cyaw syaw cpit spit xs ys nameS ∧
      edgeWidthScaleFactor w h cyaw syaw cpit spit xs ys nameS xt yt nameT =
        nodeScaleFactor w h cyaw syaw cpit spit xt yt nameT := by
  have hscale : (projectXY true w h cyaw syaw cpit spit xs ys
      (depthFor true w h nameS)).scale =
      (projectXY true w h cyaw syaw cpit spit xt yt
        (depthFor true w h nameT)).scale := by
    rw [projectXY_scale_eval, projectXY_scale_eval, hz]
  unfold edgeWidthScaleFactor nodeScaleFactor
  rw [hscale]
  constructor <;> ring

/-- Witness for C8: at yaw = pitch = 0 the camera depth equals the computed
depth, and the names `A` and `@Q` hash to the same depth, so the hypothesis
holds and node and edge factors agree. -/
theorem scale_consistency_witness :
    (projectXY true 1000 1000 1 0 1 0 600 500
        (depthFor true 1000 1000 "A")).zCam =
      (projectXY true 1000 1000 1 0 1 0 400 500
        (depthFor true 1000 1000 "@Q")).zCam ∧
      edgeWidthScaleFactor 1000 1000 1 0 1 0 600 500 "A" 400 500 "@Q" =
          nodeScaleFactor 1000 1000 1 0 1 0 600 500 "A" ∧
        edgeWidthScaleFactor 1000 1000 1 0 1 0 600 500 "A" 400 500 "@Q" =
          nodeScaleFactor 1000 1000 1 0 1 0 400 500 "@Q" := by
  have hdepth : depthFor true 1000 1000 "A" = depthFor true 1000 1000 "@Q" := by
    unfold depthFor
    rw [show hashU1000 "A" = hashU1000 "@Q" from by decide]
  have hz : (projectXY true 1000 1000 1 0 1 0 600 500
      (depthFor true 1000 1000 "A")).zCam =
      (projectXY true 1000 1000 1 0 1 0 400 500
        (depthFor true 1000 1000 "@Q")).zCam := by
    rw [projectXY_zCam_eval, projectXY_zCam_eval, hdepth]
    ring
  exact ⟨hz, scale_consistency 1000 1000 1 0 1 0 600 500 400 500 "A" "@Q" hz⟩

/-- C8 is false as stated: with yaw = π/2 (rotation parameters
`cyaw = 0, syaw = 1, cpit = 1, spit = 0`) on a 1000×1000 viewport, the nodes
`A` at (600, 500) and `@Q` at (400, 500) have identical computed depths, yet
the node factor of `A` is 9/8 while the stroke factor of the edge between
them is 81/80. -/
theorem scale_consistency_cex :
    depthFor true 1000 1000 "A" = depthFor true 1000 1000 "@Q" ∧
      nodeScaleFactor 1000 1000 0 1 1 0 600 500 "A" = 9 / 8 ∧
      edgeWidthScaleFactor 1000 1000 0 1 1 0 600 500 "A" 400 500 "@Q" =
        81 / 80 ∧
      (9 / 8 : ℚ) ≠ 81 / 80 := by
  have hdepth : depthFor true 1000 1000 "A" = depthFor true 1000 1000 "@Q" := by
    unfold depthFor
    rw [show hashU1000 "A" = hashU1000 "@Q" from by decide]
  have hsA : (projectXY true 1000 1000 0 1 1 0 600 500
      (depthFor true 1000 1000 "A")).scale = 9 / 8 := by
    rw [projectXY_scale_eval, projectXY_zCam_eval]
    rw [if_pos (by norm_num)]
    norm_num
  have hsQ : (projectXY true 1000 1000 0 1 1 0 400 500
      (depthFor true 1000 1000 "@Q")).scale = 9 / 10 := by
    rw [projectXY_scale_eval, projectXY_zCam_eval]
    rw [if_pos (by norm_num)]
    norm_num
  refine ⟨hdepth, ?_, ?_, by norm_num⟩
  · unfold nodeScaleFactor
    rw [hsA]
  · unfold edgeWidthScaleFactor
    rw [hsA, hsQ]
    norm_num

/-- A stored station position / geocode record `{lat, lng}`. -/
structure LatLng where
  lat : ℚ
  lng : ℚ
deriving DecidableEq, Repr

/-- The environment `getStationLatLng` reads: the `stationPos` and
`stationPosNorm` maps filled by `ensureProjection` (GBFS feed and local
overrides), the optional boundary polygon (abstract type `P`) with the
`d3.geoContains` point test, the centroid `[lng, lat]`, and the name
normalizer (`normalizeName`, NFKD-based, kept abstract: any function of the
name).  All are fixed once loaded, matching "the same loaded feeds and
polygon". -/
structure GeoEnv (P : Type) where
  stationPos : List (String × LatLng)
  stationPosNorm : List (String × LatLng)
  geojson : Option P
  geoContains : P → ℚ × ℚ → Bool
  torontoCentroid : ℚ × ℚ
  normalizeName : String → String

/-- Lookup `Map.get` on a station-position map. -/
def lookupPos : List (String × LatLng) → String → Option LatLng
  | [], _ => none
  | (n, p) :: rest, s => if n = s then some p else lookupPos rest s

/-- The `h = ((h << 5) - h) + ch.charCodeAt(0) | 0` hash of
`getStationLatLng` (`h << 5` wraps to signed 32 bits, as does `| 0`). -/
def hashShift5 (s : String) : Int :=
  s.data.foldl (fun h c => toInt32 (toInt32 (h * 32) - h + (c.toNat : Int)))
    0

/-- Source `getStationLatLng(name)`: prefer the exact-name feed, then the
normalized-name overrides (both guarded by `isFinite`, which is always true
of a rational), then a deterministic hash-based position in the Toronto
bounding box; when the boundary polygon is loaded and rejects the point,
re-jitter around the centroid, and on a second rejection return the
centroid itself. -/
def getStationLatLng {P : Type} (env : GeoEnv P) (name : String) : LatLng :=
  match lookupPos env.stationPos name with
  | some rec0 => rec0
  | none =>
  match lookupPos env.stationPosNorm (env.normalizeName name) with
  | some rec0 => rec0
  | none =>
    let hash := hashShift5 name
    let u : ℚ := ((hash.natAbs % 1000 : ℕ) : ℚ) / 999
    let v : ℚ := (((Int.fdiv hash 1024).natAbs % 1000 : ℕ) : ℚ) / 999
    let lat0 : ℚ := 43.58 + u * (43.85 - 43.58)
    let lng0 : ℚ := -79.65 + v * (-79.12 - -79.65)
    match env.geojson with
    | none => ⟨lat0, lng0⟩
    | some poly =>
      if env.geoContains poly (lng0, lat0) then ⟨lat0, lng0⟩
      else
        let ju : ℚ := ((((Int.fdiv hash 32).natAbs % 1000 : ℕ) : ℚ) / 999
          - 0.5) * 2
        let jv : ℚ := ((((Int.fdiv hash 2048).natAbs % 1000 : ℕ) : ℚ) / 999
          - 0.5) * 2
        let lng1 : ℚ := env.torontoCentroid.1 + ju * 0.01
        let lat1 : ℚ := env.torontoCentroid.2 + jv * 0.01
        if env.geoContains poly (lng1, lat1) then ⟨lat1, lng1⟩
        else ⟨env.torontoCentroid.2, env.torontoCentroid.1⟩

theorem lookupPos_mem {l : List (String × LatLng)} {s : String} {p : LatLng}
    (h : lookupPos l s = some p) : ∃ n, (n, p) ∈ l := by
  induction l with
  | nil => simp [lookupPos] at h
  | cons q rest ih =>
    obtain ⟨n, v⟩ := q
    by_cases hn : n = s
    · simp only [lookupPos, if_pos hn] at h
      exact ⟨n, by simp [← Option.some_inj.mp h]⟩
    · simp only [lookupPos, if_neg hn] at h
      obtain ⟨m, hm⟩ := ih h
      exact ⟨m, List.mem_cons_of_mem _ hm⟩

theorem unit_frac_bounds (k : Nat) :
    0 ≤ ((k % 1000 : ℕ) : ℚ) / 999 ∧ ((k % 1000 : ℕ) : ℚ) / 999 ≤ 1 := by
  have h1 : (k % 1000 : ℕ) ≤ 999 := by omega
  have h2 : ((k % 1000 : ℕ) : ℚ) ≤ 999 := by exact_mod_cast h1
  have h3 : (0 : ℚ) ≤ ((k % 1000 : ℕ) : ℚ) := by positivity
  constructor
  · positivity
  · rw [div_le_one (by norm_num)]
    exact h2

/-- C9: `getStationLatLng` is total — for every station name, even one absent
from every geocode feed and override list, every branch returns a finite
(bounded) `{lat, lng}` pair: assuming the loaded feed entries carry
coordinates within ±90/±180 and the centroid lies strictly inside, the result
always does too.  Determinism is structural: the embedding is a pure function
of the name and the loaded environment, so two calls with the same name
against the same feeds and polygon return the same coordinate. -/
theorem getStationLatLng_total {P : Type} (env : GeoEnv P) (name : String)
    (hname : name ≠ "")
    (hfeed : ∀ p ∈ env.stationPos, |p.2.lat| ≤ 90 ∧ |p.2.lng| ≤ 180)
    (hfeedN : ∀ p ∈ env.stationPosNorm, |p.2.lat| ≤ 90 ∧ |p.2.lng| ≤ 180)
    (hcLng : |env.torontoCentroid.1| ≤ 179)
    (hcLat : |env.torontoCentroid.2| ≤ 89) :
    |(getStationLatLng env name).lat| ≤ 90 ∧
      |(getStationLatLng env name).lng| ≤ 180 ∧
      getStationLatLng env name = getStationLatLng env name := by
  refine ⟨?_, ?_, rfl⟩ <;>
  · unfold getStationLatLng
    cases hpos : lookupPos env.stationPos name with
    | some rec0 =>
      obtain ⟨n, hn⟩ := lookupPos_mem hpos
      have := hfeed (n, rec0) hn
      simp only []
      tauto
    | none =>
    cases hnorm : lookupPos env.stationPosNorm (env.normalizeName name) with
    | some rec0 =>
      obtain ⟨n, hn⟩ := lookupPos_mem hnorm
      have := hfeedN (n, rec0) hn
      simp only []
      tauto
    | none =>
    have hu := unit_frac_bounds (hashShift5 name).natAbs
    have hv := unit_frac_bounds (Int.fdiv (hashShift5 name) 1024).natAbs
    have hju := unit_frac_bounds (Int.fdiv (hashShift5 name) 32).natAbs
    have hjv := unit_frac_bounds (Int.fdiv (hashShift5 name) 2048).natAbs
    have hcl1 := abs_le.mp hcLng
    have hcl2 := abs_le.mp hcLat
    cases env.geojson with
    | none =>
      simp only []
      rw [abs_le]
      constructor <;> nlinarith [hu.1, hu.2, hv.1, hv.2]
    | some poly =>
      by_cases hc1 : env.geoContains poly
        (-79.65 + (((Int.fdiv (hashShift5 name) 1024).natAbs % 1000 : ℕ) : ℚ)
            / 999 * (-79.12 - -79.65),
          43.58 + (((hashShift5 name).natAbs % 1000 : ℕ) : ℚ) / 999 *
            (43.85 - 43.58)) = true
      · simp only [hc1, if_pos]
        rw [abs_le]
        constructor <;> nlinarith [hu.1, hu.2, hv.1, hv.2]
      · simp only [hc1]
        by_cases hc2 : env.geoContains poly
          (env.torontoCentroid.1 +
              ((((Int.fdiv (hashShift5 name) 32).natAbs % 1000 : ℕ) : ℚ) /
                999 - 0.5) * 2 * 0.01,
            env.torontoCentroid.2 +
              ((((Int.fdiv (hashShift5 name) 2048).natAbs % 1000 : ℕ) : ℚ) /
                999 - 0.5) * 2 * 0.01) = true
        · simp only [hc2, if_pos, Bool.false_eq_true, if_false]
          rw [abs_le]
          constructor <;> nlinarith [hju.1, hju.2, hjv.1, hjv.2]
        · simp only [hc2, Bool.false_eq_true, if_false]
          rw [abs_le]
          constructor <;> linarith

/-- Witness for C9 on a concrete environment (one feed entry, no polygon)
and the unlisted name `A`. -/
theorem getStationLatLng_total_witness :
    ("A" : String) ≠ "" ∧
      (∀ p ∈ (GeoEnv.mk [("X", ⟨43.6, -79.4⟩)] [] none (fun _ _ => false)
          (-79.3832, 43.6532) id : GeoEnv Unit).stationPos,
        |p.2.lat| ≤ 90 ∧ |p.2.lng| ≤ 180) ∧
      (∀ p ∈ (GeoEnv.mk [("X", ⟨43.6, -79.4⟩)] [] none (fun _ _ => false)
          (-79.3832, 43.6532) id : GeoEnv Unit).stationPosNorm,
        |p.2.lat| ≤ 90 ∧ |p.2.lng| ≤ 180) ∧
      |(GeoEnv.mk [("X", ⟨43.6, -79.4⟩)] [] none (fun _ _ => false)
          (-79.3832, 43.6532) id : GeoEnv Unit).torontoCentroid.1| ≤ 179 ∧
      |(GeoEnv.mk [("X", ⟨43.6, -79.4⟩)] [] none (fun _ _ => false)
          (-79.3832, 43.6532) id : GeoEnv Unit).torontoCentroid.2| ≤ 89 ∧
      (|(getStationLatLng (GeoEnv.mk [("X", ⟨43.6, -79.4⟩)] [] none
            (fun _ _ => false) (-79.3832, 43.6532) id : GeoEnv Unit)
          "A").lat| ≤ 90 ∧
        |(getStationLatLng (GeoEnv.mk [("X", ⟨43.6, -79.4⟩)] [] none
            (fun _ _ => false) (-79.3832, 43.6532) id : GeoEnv Unit)
          "A").lng| ≤ 180 ∧
        getStationLatLng (GeoEnv.mk [("X", ⟨43.6, -79.4⟩)] [] none
            (fun _ _ => false) (-79.3832, 43.6532) id : GeoEnv Unit) "A" =
          getStationLatLng (GeoEnv.mk [("X", ⟨43.6, -79.4⟩)] [] none
            (fun _ _ => false) (-79.3832, 43.6532) id : GeoEnv Unit) "A") :=
  ⟨by decide,
    by
      intro p hp
      simp only [List.mem_singleton] at hp
      subst hp
      constructor <;> rw [abs_le] <;> constructor <;> norm_num,
    by intro p hp; simp at hp,
    by rw [abs_le]; constructor <;> norm_num,
    by rw [abs_le]; constructor <;> norm_num,
    getStationLatLng_total _ "A" (by decide)
      (by
        intro p hp
        simp only [List.mem_singleton] at hp
        subst hp
        constructor <;> rw [abs_le] <;> constructor <;> norm_num)
      (by intro p hp; simp at hp)
      (by rw [abs_le]; constructor <;> norm_num)
      (by rw [abs_le]; constructor <;> norm_num)⟩

end BikeVis
